import Mathlib

/-!
Verification of the Excel-SQL bridge (Python-ExcelFile-SQL).

Shallow embedding of the repository's core logic:

* `excel_sql_manager.py`: manager state (original/modified sheet maps and
  materialized SQL tables), `_clean_table_name`, `update_sheet_from_query`,
  `save_excel`, `load_excel_to_memory`, `load_sheets_to_sql`, `close`.
* `sql_utils.py`: `SQLQueryBuilder.filter_by_value` /
  `filter_by_multiple_values` (query-text generation),
  `DataAnalysisQueries.pareto_analysis` / `outlier_detection` (the denotation
  of the generated SQL, in exact rational arithmetic), and
  `generate_data_quality_report`.

Python strings are modelled at the ASCII level (`Char.isAlphanum`,
`Char.isAlpha` for `str.isalpha` and the word-character class of `re`);
SQLite values are modelled by `SqlValue` (NULL, integer, text) and numeric
columns by lists of rationals, with SQLite's floating-point arithmetic
replaced by exact arithmetic over `ℚ`.
-/

/-- A SQLite cell value: NULL, an integer, or a text string.  Enough to
express the behaviour of `generate_data_quality_report`, whose SQL treats
NULL and the empty text string specially. -/
inductive SqlValue where
  | null
  | int (n : Int)
  | text (s : String)
deriving DecidableEq

/-! ### `ExcelSQLManager._clean_table_name` (excel_sql_manager.py lines 312-329)

Python: `cleaned = re.sub(r'[^\w]', '_', name)`; prepend an underscore when
the first character is neither alphabetic nor an underscore; return
`cleaned or 'unnamed_table'`. -/

/-- The word-character class `\w` of `re.sub(r'[^\w]', '_', name)`, at the
ASCII level: letters, digits and the underscore. -/
def isWordChar (c : Char) : Bool := c.isAlphanum || c == '_'

/-- `ExcelSQLManager._clean_table_name`, on the character list of the input
string: replace every non-word character by an underscore, force a leading
letter or underscore, and fall back to `unnamed_table` when empty. -/
def cleanTableName (name : List Char) : List Char :=
  let cleaned := name.map (fun c => if isWordChar c then c else '_')
  let cleaned2 :=
    match cleaned with
    | [] => []
    | c :: _ => if c.isAlpha || c == '_' then cleaned else '_' :: cleaned
  if cleaned2 = [] then "unnamed_table".toList else cleaned2

/-! ### `generate_data_quality_report` (sql_utils.py lines 326-366)

Per column the report runs
`SELECT COUNT(col) FROM t WHERE col IS NOT NULL AND col != ''` for the
non-null count, and computes `null_count = row_count - non_null_count` and
`completeness = round(non_null_count / row_count * 100, 2)` (`0` when the
table is empty).  In SQLite, `col != ''` is true for every integer value
(numeric values sort before text) and false for NULL and the empty text. -/

/-- Whether a cell satisfies the report's SQL filter
`col IS NOT NULL AND col != ''` under SQLite comparison semantics. -/
def keptByQualityFilter : SqlValue → Bool
  | .null => false
  | .int _ => true
  | .text s => s != ""

/-- The report's `non_null_count` for one column, modelled as the list of the
column's cells. -/
def nonNullCount (col : List SqlValue) : Nat :=
  (col.filter keptByQualityFilter).length

/-- The report's `null_count`: `row_count - non_null_count` (Python integer
subtraction). -/
def reportNullCount (col : List SqlValue) : Int :=
  (col.length : Int) - (nonNullCount col : Int)

/-- Python 3 `round` to an integer: round half to even. -/
def roundHalfEven (x : ℚ) : Int :=
  let f := ⌊x⌋
  if x - f < 1/2 then f
  else if 1/2 < x - f then f + 1
  else if f % 2 = 0 then f else f + 1

/-- Python `round(x, 2)`. -/
def pyRound2 (x : ℚ) : ℚ := (roundHalfEven (x * 100) : ℚ) / 100

/-- The report's completeness percentage for one column:
`round(non_null_count / row_count * 100, 2) if row_count > 0 else 0`. -/
def completeness (col : List SqlValue) : ℚ :=
  if 0 < col.length then pyRound2 ((nonNullCount col : ℚ) / (col.length : ℚ) * 100)
  else 0

/-- The count of truly non-null values of a column — the quantity named
`non_null` by the claim (it counts the empty text string as non-null,
unlike the report's SQL filter). -/
def trueNonNullCount (col : List SqlValue) : Nat :=
  (col.filter (fun v => match v with | .null => false | _ => true)).length

/-- The number of NULL cells of a column. -/
def nullsIn (col : List SqlValue) : Nat :=
  (col.filter (fun v => match v with | .null => true | _ => false)).length

/-- The number of empty-text cells of a column. -/
def emptyTextsIn (col : List SqlValue) : Nat :=
  (col.filter (fun v => match v with | .text s => s == "" | _ => false)).length

/-- The three cell classes — kept by the report's filter, NULL, empty text —
partition every column. -/
lemma quality_partition (col : List SqlValue) :
    nonNullCount col + nullsIn col + emptyTextsIn col = col.length := by
  induction col with
  | nil => rfl
  | cons v rest ih =>
    unfold nonNullCount nullsIn emptyTextsIn at *
    cases v with
    | null =>
      simp [List.filter_cons, keptByQualityFilter]
      omega
    | int n =>
      simp [List.filter_cons, keptByQualityFilter]
      omega
    | text s =>
      by_cases hs : s = "" <;>
        · simp [List.filter_cons, keptByQualityFilter, hs]
          omega

/-- Claim C4 fails on the code: for the one-row column holding the empty text
string, the report computes completeness `0` and null count `1`, while the
claim's formula (with `non_null` the count of non-null values, which counts
the empty string) gives completeness `100` and null count `0`. -/
theorem quality_report_counterexample :
    completeness [SqlValue.text ""] = 0 ∧
    trueNonNullCount [SqlValue.text ""] = 1 ∧
    pyRound2 ((trueNonNullCount [SqlValue.text ""] : ℚ) / 1 * 100) = 100 ∧
    reportNullCount [SqlValue.text ""] = 1 := by
  refine ⟨?_, rfl, ?_, rfl⟩
  · show (if 0 < 1 then pyRound2 ((nonNullCount [SqlValue.text ""] : ℚ) / 1 * 100) else 0) = 0
    have h : nonNullCount [SqlValue.text ""] = 0 := rfl
    rw [h]
    norm_num [pyRound2, roundHalfEven]
  · have h : trueNonNullCount [SqlValue.text ""] = 1 := rfl
    rw [h]
    norm_num [pyRound2, roundHalfEven]

/-- Claim C4 as amended: the report's completeness percentage is `0` for an
empty table and otherwise `round(100 × kept / row_count, 2)` where `kept`
counts the cells that are non-null *and not the empty text string*; the
reported null count is the number of NULL cells plus the number of
empty-text cells. -/
theorem quality_report_amended (col : List SqlValue) :
    completeness col = (if col.length = 0 then 0
      else pyRound2 (100 * ((col.length - nullsIn col - emptyTextsIn col : Int) : ℚ) / (col.length : ℚ))) ∧
    reportNullCount col = (nullsIn col : Int) + (emptyTextsIn col : Int) := by
  have hpart := quality_partition col
  have hnn : (nonNullCount col : Int) = (col.length : Int) - nullsIn col - emptyTextsIn col := by
    omega
  constructor
  · unfold completeness
    rcases Nat.eq_zero_or_pos col.length with h0 | hpos
    · simp [h0]
    · rw [if_pos hpos, if_neg (Nat.pos_iff_ne_zero.mp hpos)]
      congr 1
      have : ((nonNullCount col : Int) : ℚ) = (((col.length : Int) - nullsIn col - emptyTextsIn col : Int) : ℚ) := by
        exact_mod_cast congrArg (fun z : Int => (z : ℚ)) hnn
      push_cast at this ⊢
      rw [this]
      ring
  · unfold reportNullCount
    omega

/-- Claim C3: for every input string, `_clean_table_name` yields a non-empty
name of word characters only, starting with a letter or an underscore; it is
a pure function of the input, every non-word character is mapped to an
underscore (the output is the character-wise substitution, possibly with one
underscore prepended), and the empty input yields the fixed default
`unnamed_table`. -/
theorem clean_table_name_sound (name : List Char) :
    cleanTableName name ≠ [] ∧
    (∀ c ∈ cleanTableName name, isWordChar c = true) ∧
    (∀ c rest, cleanTableName name = c :: rest → (c.isAlpha || c == '_') = true) ∧
    (name = [] → cleanTableName name = "unnamed_table".toList) ∧
    (name ≠ [] →
      cleanTableName name = name.map (fun c => if isWordChar c then c else '_') ∨
      cleanTableName name = '_' :: name.map (fun c => if isWordChar c then c else '_')) := by
  cases name with
  | nil =>
    refine ⟨by decide, by decide, ?_, fun _ => rfl, fun h => absurd rfl h⟩
    intro c rest h
    have : c = 'u' := by
      have := congrArg (fun l => l.headD ' ') h
      simpa [cleanTableName] using this.symm
    subst this
    decide
  | cons a as =>
    have hmapword : ∀ c ∈ (a :: as).map (fun c => if isWordChar c then c else '_'),
        isWordChar c = true := by
      intro c hc
      rcases List.mem_map.mp hc with ⟨x, _, hx⟩
      by_cases hw : isWordChar x
      · rw [← hx]; simp [hw]
      · rw [← hx]; simp [hw]; decide
    set a' := if isWordChar a then a else '_' with ha'
    have hclean : (a :: as).map (fun c => if isWordChar c then c else '_')
        = a' :: as.map (fun c => if isWordChar c then c else '_') := by
      simp [ha']
    by_cases hfirst : (a'.isAlpha || a' == '_') = true
    · have hres : cleanTableName (a :: as)
          = a' :: as.map (fun c => if isWordChar c then c else '_') := by
        unfold cleanTableName
        rw [hclean]
        simp [hfirst]
      refine ⟨by rw [hres]; exact List.cons_ne_nil _ _, ?_, ?_, ?_, ?_⟩
      · intro c hc
        rw [hres, ← hclean] at hc
        exact hmapword c hc
      · intro c rest h
        rw [hres] at h
        have : a' = c := (List.cons.injEq _ _ _ _ ▸ h).1
        rw [← this]; exact hfirst
      · intro h; exact absurd h (List.cons_ne_nil _ _)
      · intro _
        left
        rw [hres, hclean]
    · have hres : cleanTableName (a :: as)
          = '_' :: a' :: as.map (fun c => if isWordChar c then c else '_') := by
        unfold cleanTableName
        rw [hclean]
        simp [hfirst]
      refine ⟨by rw [hres]; exact List.cons_ne_nil _ _, ?_, ?_, ?_, ?_⟩
      · intro c hc
        rw [hres] at hc
        rcases List.mem_cons.mp hc with h1 | h2
        · rw [h1]; decide
        · rw [← hclean] at h2
          exact hmapword c h2
      · intro c rest h
        rw [hres] at h
        have : '_' = c := (List.cons.injEq _ _ _ _ ▸ h).1
        rw [← this]; decide
      · intro h; exact absurd h (List.cons_ne_nil _ _)
      · intro _
        right
        rw [hres, hclean]

/-- Witness for claim C3 at the concrete input `"2 sheet!"`: the sanitized
name is `_2_sheet_`, non-empty, all word characters, leading underscore. -/
theorem clean_table_name_sound_witness :
    cleanTableName "2 sheet!".toList ≠ [] ∧
    (∀ c ∈ cleanTableName "2 sheet!".toList, isWordChar c = true) ∧
    (∀ c rest, cleanTableName "2 sheet!".toList = c :: rest → (c.isAlpha || c == '_') = true) ∧
    ("2 sheet!".toList = [] → cleanTableName "2 sheet!".toList = "unnamed_table".toList) ∧
    ("2 sheet!".toList ≠ [] →
      cleanTableName "2 sheet!".toList
        = "2 sheet!".toList.map (fun c => if isWordChar c then c else '_') ∨
      cleanTableName "2 sheet!".toList
        = '_' :: "2 sheet!".toList.map (fun c => if isWordChar c then c else '_')) :=
  clean_table_name_sound "2 sheet!".toList

/-! ### `SQLQueryBuilder.filter_by_value` and `filter_by_multiple_values`
(sql_utils.py lines 28-44)

`filter_by_value` single-quotes the value exactly when it is a Python
string; `filter_by_multiple_values` single-quotes the elements exactly when
*all* elements are strings, and otherwise renders every element with
`str()`, unquoted. -/

/-- A Python value passed to the query builders: a string or an integer. -/
inductive PyVal where
  | str (s : String)
  | int (n : Int)
deriving DecidableEq

/-- Python `str()` on such a value. -/
def pyStr : PyVal → String
  | .str s => s
  | .int n => toString n

/-- Python `isinstance(v, str)`. -/
def PyVal.isStr : PyVal → Bool
  | .str _ => true
  | .int _ => false

/-- A value wrapped in single quotes, as by `f"'{v}'"`. -/
def quoteStr (s : String) : String := "'" ++ s ++ "'"

/-- `SQLQueryBuilder.filter_by_value(table_name, column, value, operator)`. -/
def filter_by_value (table column : String) (value : PyVal) (op : String) : String :=
  let rendered := match value with
    | .str s => quoteStr s
    | v => pyStr v
  "SELECT * FROM " ++ table ++ " WHERE " ++ column ++ " " ++ op ++ " " ++ rendered

/-- Python `", ".join(parts)`. -/
def joinComma : List String → String
  | [] => ""
  | [s] => s
  | s :: rest => s ++ ", " ++ joinComma rest

/-- `SQLQueryBuilder.filter_by_multiple_values(table_name, column, values)`. -/
def filter_by_multiple_values (table column : String) (values : List PyVal) : String :=
  let values_str :=
    if values.all PyVal.isStr then joinComma (values.map (fun v => quoteStr (pyStr v)))
    else joinComma (values.map pyStr)
  "SELECT * FROM " ++ table ++ " WHERE " ++ column ++ " IN (" ++ values_str ++ ")"

/-- Whether `needle` occurs as a contiguous run of characters in `hay`. -/
def containsSub (needle : List Char) : List Char → Bool
  | [] => needle.isEmpty
  | c :: rest => needle.isPrefixOf (c :: rest) || containsSub needle rest


lemma containsSub_nil_needle (l : List Char) : containsSub [] l = true := by
  induction l with
  | nil => rfl
  | cons c rest ih => simp [containsSub, List.isPrefixOf]

lemma containsSub_self_append (n rest : List Char) :
    containsSub n (n ++ rest) = true := by
  have hpre : n.isPrefixOf (n ++ rest) = true :=
    List.isPrefixOf_iff_prefix.mpr (List.prefix_append n rest)
  cases n with
  | nil => exact containsSub_nil_needle _
  | cons a as =>
    show ((a :: as).isPrefixOf ((a :: as) ++ rest)
        || containsSub (a :: as) (as ++ rest)) = true
    simp [hpre]

lemma containsSub_cons (n : List Char) (c : Char) (l : List Char)
    (h : containsSub n l = true) : containsSub n (c :: l) = true := by
  show (n.isPrefixOf (c :: l) || containsSub n l) = true
  simp [h]

lemma containsSub_append_left (n pre l : List Char)
    (h : containsSub n l = true) : containsSub n (pre ++ l) = true := by
  induction pre with
  | nil => simpa using h
  | cons c cs ih => exact containsSub_cons _ _ _ ih

lemma containsSub_append_right (n l post : List Char)
    (h : containsSub n l = true) : containsSub n (l ++ post) = true := by
  induction l with
  | nil =>
    have : n = [] := by
      cases n with
      | nil => rfl
      | cons a as => simp [containsSub, List.isEmpty] at h
    subst this
    exact containsSub_nil_needle _
  | cons c ls ih =>
    rcases Bool.or_eq_true_iff.mp h with hp | hc
    · have : n <+: ((c :: ls) ++ post) :=
        List.IsPrefix.trans (List.isPrefixOf_iff_prefix.mp hp) (List.prefix_append _ _)
      show (n.isPrefixOf (c :: (ls ++ post)) || containsSub n (ls ++ post)) = true
      have hp2 : n.isPrefixOf (c :: (ls ++ post)) = true :=
        List.isPrefixOf_iff_prefix.mpr this
      simp [hp2]
    · exact containsSub_cons _ _ _ (ih hc)

/-- Every element's rendering occurs contiguously in the comma join. -/
lemma joinComma_contains (f : PyVal → String) (vs : List PyVal) (v : PyVal)
    (hv : v ∈ vs) : containsSub (f v).toList (joinComma (vs.map f)).toList = true := by
  induction vs with
  | nil => cases hv
  | cons w rest ih =>
    rcases List.mem_cons.mp hv with rfl | hmem
    · cases rest with
      | nil =>
        have : joinComma ([v].map f) = f v := rfl
        rw [this]
        simpa using containsSub_self_append (f v).toList []
      | cons x xs =>
        have : joinComma ((v :: x :: xs).map f)
            = f v ++ ", " ++ joinComma ((x :: xs).map f) := rfl
        rw [this, String.append_assoc]
        rw [show (f v ++ (", " ++ joinComma ((x :: xs).map f))).toList
            = (f v).toList ++ (", " ++ joinComma ((x :: xs).map f)).toList from rfl]
        exact containsSub_self_append _ _
    · have : joinComma ((w :: rest).map f) = (match rest with
        | [] => f w
        | _ :: _ => f w ++ ", " ++ joinComma (rest.map f)) := by
        cases rest with
        | nil => rfl
        | cons x xs => rfl
      cases rest with
      | nil => cases hmem
      | cons x xs =>
        rw [this, String.append_assoc]
        rw [show (f w ++ (", " ++ joinComma ((x :: xs).map f))).toList
            = (f w).toList ++ (", ".toList ++ (joinComma ((x :: xs).map f)).toList) from rfl]
        exact containsSub_append_left _ _ _
          (containsSub_append_left _ _ _ (ih hmem))

/-- Claim C9 fails on the code: for the mixed value list `["a", 1]` the
`all(isinstance(v, str))` test is false, so the string element `"a"` is
rendered by `str()` without quotes: the generated query is
`SELECT * FROM t WHERE c IN (a, 1)` and the single-quoted form of `"a"`
occurs nowhere in it. -/
theorem literal_interpolation_counterexample :
    filter_by_multiple_values "t" "c" [PyVal.str "a", PyVal.int 1]
      = "SELECT * FROM t WHERE c IN (a, 1)" ∧
    containsSub (quoteStr "a").toList
      (filter_by_multiple_values "t" "c" [PyVal.str "a", PyVal.int 1]).toList = false :=
  ⟨rfl, by decide⟩

/-- Claim C9 as amended: a string value passed to `filter_by_value` is
interpolated single-quoted with no escaping; in `filter_by_multiple_values`
every string element appears single-quoted in the generated `IN` clause
*when all elements of the list are strings*, while if some element is not a
string every element (strings included) is rendered by `str()` and
interpolated without quotes. -/
theorem literal_interpolation_amended (table column op s : String) (vs : List PyVal) :
    filter_by_value table column (.str s) op
      = "SELECT * FROM " ++ table ++ " WHERE " ++ column ++ " " ++ op ++ " " ++ quoteStr s ∧
    (vs.all PyVal.isStr = true → ∀ t, PyVal.str t ∈ vs →
      containsSub (quoteStr t).toList
        (filter_by_multiple_values table column vs).toList = true) ∧
    (vs.all PyVal.isStr = false →
      filter_by_multiple_values table column vs
        = "SELECT * FROM " ++ table ++ " WHERE " ++ column ++ " IN ("
            ++ joinComma (vs.map pyStr) ++ ")") := by
  refine ⟨rfl, ?_, ?_⟩
  · intro hall t ht
    unfold filter_by_multiple_values
    rw [if_pos hall]
    have hjoin : containsSub (quoteStr t).toList
        (joinComma (vs.map fun v => quoteStr (pyStr v))).toList = true :=
      joinComma_contains (fun v => quoteStr (pyStr v)) vs (PyVal.str t) ht
    have hsplit : ("SELECT * FROM " ++ table ++ " WHERE " ++ column ++ " IN ("
        ++ joinComma (vs.map fun v => quoteStr (pyStr v)) ++ ")").toList
        = "SELECT * FROM ".toList ++ (table.toList ++ (" WHERE ".toList
          ++ (column.toList ++ (" IN (".toList
          ++ ((joinComma (vs.map fun v => quoteStr (pyStr v))).toList
            ++ ")".toList))))) := by
      simp [String.toList, String.data_append, List.append_assoc]
    rw [hsplit]
    exact containsSub_append_left _ _ _ (containsSub_append_left _ _ _
      (containsSub_append_left _ _ _ (containsSub_append_left _ _ _
        (containsSub_append_left _ _ _
          (containsSub_append_right _ _ _ hjoin)))))
  · intro hnall
    unfold filter_by_multiple_values
    rw [if_neg (by simp [hnall])]

/-- Witness for the amended claim C9 at `table = "t"`, `column = "c"`,
`op = "="`, `s = "a"` and the all-string list `["a", "b"]`. -/
theorem literal_interpolation_amended_witness :
    (filter_by_value "t" "c" (.str "a") "="
      = "SELECT * FROM " ++ "t" ++ " WHERE " ++ "c" ++ " " ++ "=" ++ " " ++ quoteStr "a" ∧
    ([PyVal.str "a", PyVal.str "b"].all PyVal.isStr = true →
      ∀ t, PyVal.str t ∈ [PyVal.str "a", PyVal.str "b"] →
      containsSub (quoteStr t).toList
        (filter_by_multiple_values "t" "c" [PyVal.str "a", PyVal.str "b"]).toList = true) ∧
    ([PyVal.str "a", PyVal.str "b"].all PyVal.isStr = false →
      filter_by_multiple_values "t" "c" [PyVal.str "a", PyVal.str "b"]
        = "SELECT * FROM " ++ "t" ++ " WHERE " ++ "c" ++ " IN ("
            ++ joinComma ([PyVal.str "a", PyVal.str "b"].map pyStr) ++ ")")) ∧
    [PyVal.str "a", PyVal.str "b"].all PyVal.isStr = true :=
  ⟨literal_interpolation_amended "t" "c" "=" "a" [PyVal.str "a", PyVal.str "b"], by decide⟩


/-! ### `ExcelSQLManager` state (excel_sql_manager.py)

The manager holds `original_excel_data` and `modified_data` (Python dicts of
sheet name → DataFrame) and the SQLite database with one table per
materialized sheet.  Dicts are modelled by association lists in insertion
order with unique keys (a Python dict cannot hold a key twice); assignment
`d[k] = v` updates the entry in place if `k` is present and appends
otherwise.  A DataFrame is modelled by its column names and row values; a
query by its denotation, a function from the materialized tables to its
result. -/

/-- A DataFrame: ordered column names and ordered rows of cell values. -/
structure Dataset where
  cols : List String
  rows : List (List SqlValue)
deriving DecidableEq

/-- A Python dict of sheet name → DataFrame, in insertion order. -/
abbrev SheetMap := List (String × Dataset)

/-- Dict lookup `m[k]`. -/
def dictGet : SheetMap → String → Option Dataset
  | [], _ => none
  | (k2, v) :: rest, k => if k2 = k then some v else dictGet rest k

/-- Dict assignment `m[k] = v`: replace the entry for `k` in place if
present, else append at the end. -/
def dictSet : SheetMap → String → Dataset → SheetMap
  | [], k, v => [(k, v)]
  | (k2, w) :: rest, k, v =>
      if k2 = k then (k, v) :: rest else (k2, w) :: dictSet rest k v

/-- The in-memory state of an `ExcelSQLManager`: the read-only original map,
the modified map that gets persisted, and the tables materialized in the
SQLite database (keyed by sanitized table name). -/
structure ManagerState where
  originalData : SheetMap
  modifiedData : SheetMap
  tables : SheetMap
deriving DecidableEq

/-- A SQL query, by its denotation: the result it returns when executed
against the materialized tables (`execute_query` via `pd.read_sql_query`). -/
def SqlQuery := SheetMap → Dataset

/-- `ExcelSQLManager.execute_query(query)`: read-only, returns the result. -/
def execute_query (st : ManagerState) (q : SqlQuery) : Dataset := q st.tables

/-- `ExcelSQLManager.update_sheet_from_query(sheet_name, query)` (lines
218-237): run the query and overwrite `modified_data[sheet_name]` with the
full result. -/
def update_sheet_from_query (st : ManagerState) (name : String) (q : SqlQuery) :
    ManagerState :=
  { st with modifiedData := dictSet st.modifiedData name (execute_query st q) }

/-- Modelled from the spec: the Tabular Store (`pd.ExcelWriter` /
`pd.read_excel` via openpyxl) is external to the repository; per the spec's
store contract, `write` creates one sheet per map entry in map order with no
synthetic index column and `read` returns the mapping preserving sheet,
column and row order — so the write/read composition is the identity on
sheet maps.  `save_excel` (lines 239-257) writes every entry of
`modified_data`. -/
def save_excel (st : ManagerState) : SheetMap := st.modifiedData

/-- `ExcelSQLManager.load_excel_to_memory` (lines 92-113) on a fresh manager:
both maps become copies of the file content; no table is materialized yet. -/
def load_excel_to_memory (file : SheetMap) : ManagerState :=
  { originalData := file, modifiedData := file, tables := [] }

lemma dictGet_dictSet_self (m : SheetMap) (k : String) (v : Dataset) :
    dictGet (dictSet m k v) k = some v := by
  induction m with
  | nil => simp [dictSet, dictGet]
  | cons q rest ih =>
    by_cases h : q.1 = k
    · rw [show dictSet (q :: rest) k v = (k, v) :: rest from by
        rw [show (q :: rest) = ((q.1, q.2) :: rest) from rfl]
        simp [dictSet, h]]
      simp [dictGet]
    · rw [show dictSet (q :: rest) k v = q :: dictSet rest k v from by
        rw [show (q :: rest) = ((q.1, q.2) :: rest) from rfl]
        simp [dictSet, h]]
      rw [show dictGet (q :: dictSet rest k v) k
          = if q.1 = k then some q.2 else dictGet (dictSet rest k v) k from rfl]
      rw [if_neg h]
      exact ih

lemma dictGet_dictSet_other (m : SheetMap) (k k2 : String) (v : Dataset)
    (hne : k2 ≠ k) : dictGet (dictSet m k v) k2 = dictGet m k2 := by
  induction m with
  | nil =>
    simp [dictSet, dictGet]
    exact fun h => hne h.symm
  | cons q rest ih =>
    by_cases h : q.1 = k
    · rw [show dictSet (q :: rest) k v = (k, v) :: rest from by
        rw [show (q :: rest) = ((q.1, q.2) :: rest) from rfl]
        simp [dictSet, h]]
      rw [show dictGet ((k, v) :: rest) k2
          = if k = k2 then some v else dictGet rest k2 from rfl]
      rw [show dictGet (q :: rest) k2
          = if q.1 = k2 then some q.2 else dictGet rest k2 from rfl]
      rw [if_neg (fun hh => hne hh.symm), if_neg (fun hh => hne (h ▸ hh).symm)]
    · rw [show dictSet (q :: rest) k v = q :: dictSet rest k v from by
        rw [show (q :: rest) = ((q.1, q.2) :: rest) from rfl]
        simp [dictSet, h]]
      rw [show dictGet (q :: dictSet rest k v) k2
          = if q.1 = k2 then some q.2 else dictGet (dictSet rest k v) k2 from rfl]
      rw [show dictGet (q :: rest) k2
          = if q.1 = k2 then some q.2 else dictGet rest k2 from rfl]
      by_cases h2 : q.1 = k2
      · rw [if_pos h2, if_pos h2]
      · rw [if_neg h2, if_neg h2]
        exact ih

/-- Claim C7: `update_sheet_from_query` sets the modified map's entry for
the sheet to exactly the full query result — a total replace — while the
original map, the materialized tables, and every other entry of the
modified map are unchanged. -/
theorem replace_total_and_framed (st : ManagerState) (name : String) (q : SqlQuery) :
    dictGet (update_sheet_from_query st name q).modifiedData name
      = some (q st.tables) ∧
    (update_sheet_from_query st name q).originalData = st.originalData ∧
    (update_sheet_from_query st name q).tables = st.tables ∧
    (∀ k, k ≠ name →
      dictGet (update_sheet_from_query st name q).modifiedData k
        = dictGet st.modifiedData k) :=
  ⟨dictGet_dictSet_self _ _ _, rfl, rfl,
    fun k hk => dictGet_dictSet_other _ _ _ _ hk⟩

/-- A concrete one-row dataset used by the witnesses. -/
def dsA : Dataset := ⟨["a"], [[SqlValue.int 1]]⟩

/-- A concrete empty dataset used by the witnesses. -/
def dsB : Dataset := ⟨["b"], []⟩

/-- A concrete dataset, distinct from `dsA`, used as a query result. -/
def dsZ : Dataset := ⟨["z"], [[SqlValue.text "x"]]⟩

/-- A concrete manager state with sheets `s` and `u` loaded and `s`
materialized. -/
def stW : ManagerState :=
  ⟨[("s", dsA), ("u", dsB)], [("s", dsA), ("u", dsB)], [("s", dsA)]⟩

/-- A concrete query: constantly `dsZ`. -/
def qW : SqlQuery := fun _ => dsZ

/-- Witness for claim C7 at the concrete state `stW`, sheet `s` and query
`qW`. -/
theorem replace_total_and_framed_witness :
    dictGet (update_sheet_from_query stW "s" qW).modifiedData "s"
      = some (qW stW.tables) ∧
    (update_sheet_from_query stW "s" qW).originalData = stW.originalData ∧
    (update_sheet_from_query stW "s" qW).tables = stW.tables ∧
    (∀ k, k ≠ "s" →
      dictGet (update_sheet_from_query stW "s" qW).modifiedData k
        = dictGet stW.modifiedData k) :=
  replace_total_and_framed stW "s" qW

/-- Claim C2: updating sheet `name` from query `q`, persisting the modified
map, and loading the persisted file into a fresh manager yields, under the
dataset named `name`, exactly the result of `q` against the tables at update
time — and not the pre-update content whenever that content differed from
the query result. -/
theorem update_persist_reload_round_trip (st : ManagerState) (name : String)
    (q : SqlQuery) :
    dictGet (load_excel_to_memory
        (save_excel (update_sheet_from_query st name q))).modifiedData name
      = some (q st.tables) ∧
    dictGet (load_excel_to_memory
        (save_excel (update_sheet_from_query st name q))).originalData name
      = some (q st.tables) ∧
    (∀ old, dictGet st.modifiedData name = some old → old ≠ q st.tables →
      dictGet (load_excel_to_memory
        (save_excel (update_sheet_from_query st name q))).modifiedData name
        ≠ some old) := by
  have hset : dictGet (dictSet st.modifiedData name (q st.tables)) name
      = some (q st.tables) := dictGet_dictSet_self _ _ _
  refine ⟨hset, hset, ?_⟩
  intro old _ hne hcontra
  rw [show (load_excel_to_memory
      (save_excel (update_sheet_from_query st name q))).modifiedData
      = dictSet st.modifiedData name (q st.tables) from rfl] at hcontra
  rw [hset] at hcontra
  exact hne (Option.some.injEq _ _ ▸ hcontra).symm

/-- Witness for claim C2 at the concrete state `stW`, sheet `s` and query
`qW`; the pre-update content `dsA` differs from the query result `dsZ`. -/
theorem update_persist_reload_round_trip_witness :
    (dictGet (load_excel_to_memory
        (save_excel (update_sheet_from_query stW "s" qW))).modifiedData "s"
      = some (qW stW.tables) ∧
    dictGet (load_excel_to_memory
        (save_excel (update_sheet_from_query stW "s" qW))).originalData "s"
      = some (qW stW.tables) ∧
    (∀ old, dictGet stW.modifiedData "s" = some old → old ≠ qW stW.tables →
      dictGet (load_excel_to_memory
        (save_excel (update_sheet_from_query stW "s" qW))).modifiedData "s"
        ≠ some old)) ∧
    dictGet stW.modifiedData "s" = some dsA ∧ dsA ≠ qW stW.tables :=
  ⟨update_persist_reload_round_trip stW "s" qW, by decide, by decide⟩

/-! ### `ExcelSQLManager.close` (excel_sql_manager.py lines 78-90)

`close` closes the live connection if any, then — when the database is a
temporary one whose backing file still exists — tries `os.remove`; an
exception from `os.remove` is caught, logged as a warning and swallowed.
The filesystem interaction is modelled by a flag saying whether the backing
file exists and a flag saying whether removal raises. -/

/-- The resources `close` touches: whether a connection is open, whether the
database is the temporary kind, whether its backing file exists. -/
structure CloseState where
  connected : Bool
  tempDb : Bool
  dbFileExists : Bool
deriving DecidableEq

/-- `os.remove`, which may raise (modelled by the `removeFails` flag). -/
def osRemove (removeFails : Bool) : Except String Unit :=
  if removeFails then Except.error "PermissionError" else Except.ok ()

/-- `ExcelSQLManager.close()`: close the connection if open; if the database
is temporary and its file exists, try to delete it, swallowing any
exception.  The result is `Except.ok` exactly when no exception escapes. -/
def closeMgr (st : CloseState) (removeFails : Bool) : Except String CloseState :=
  let st1 := if st.connected then { st with connected := false } else st
  if st1.tempDb && st1.dbFileExists then
    match osRemove removeFails with
    | Except.ok _ => Except.ok { st1 with dbFileExists := false }
    | Except.error _ => Except.ok st1
  else Except.ok st1

/-- Claim C8: `close` completes unconditionally — for every state and every
removal outcome it returns normally (never propagates an exception), even
when deleting the temporary database file fails — and it is idempotent: a
second call from the state the first call left behind succeeds and returns
that state unchanged. -/
theorem close_unconditional_and_idempotent (st : CloseState) (removeFails : Bool) :
    (∃ st2, closeMgr st removeFails = Except.ok st2) ∧
    (∀ st2, closeMgr st removeFails = Except.ok st2 →
      closeMgr st2 removeFails = Except.ok st2) := by
  rcases st with ⟨c, t, f⟩
  cases c <;> cases t <;> cases f <;> cases removeFails <;>
    exact ⟨⟨_, rfl⟩, fun st2 h => by
      rw [show st2 = _ from (Except.ok.injEq _ _ ▸ h).symm]
      rfl⟩

/-- Witness for claim C8 at the state with an open connection, a temporary
database whose file exists, and a failing removal. -/
theorem close_unconditional_and_idempotent_witness :
    (∃ st2, closeMgr ⟨true, true, true⟩ true = Except.ok st2) ∧
    (∀ st2, closeMgr ⟨true, true, true⟩ true = Except.ok st2 →
      closeMgr st2 true = Except.ok st2) :=
  close_unconditional_and_idempotent ⟨true, true, true⟩ true

/-! ### `ExcelSQLManager.load_sheets_to_sql` (excel_sql_manager.py lines
115-145)

For each requested sheet name (all loaded names when none are given): if the
name is not in `original_excel_data`, log a warning and `continue`;
otherwise create/replace the table named by the sanitized sheet name from
the **original** data (`df.to_sql(..., if_exists='replace')`). -/

/-- One iteration of the `load_sheets_to_sql` loop: skip a missing name,
else create/replace the table under the sanitized name. -/
def materializeStep (orig : SheetMap) (s : ManagerState) (n : String) : ManagerState :=
  match dictGet orig n with
  | none => s
  | some df =>
      { s with tables := dictSet s.tables (String.mk (cleanTableName n.toList)) df }

/-- `ExcelSQLManager.load_sheets_to_sql(sheet_names)`, on a manager whose
original data is already loaded.  Python's
`sheet_names if sheet_names else list(self.original_excel_data.keys())`
tests truthiness: both `None` and an explicit empty list fall back to
loading every sheet. -/
def load_sheets_to_sql (st : ManagerState) (sheetNames : Option (List String)) :
    ManagerState :=
  let sheetsToLoad := match sheetNames with
    | some (n :: ns) => n :: ns
    | _ => st.originalData.map Prod.fst
  sheetsToLoad.foldl (materializeStep st.originalData) st

/-- Python's truthiness fallback: an explicit empty sheet list is falsy, so
the call behaves exactly like the call with no list at all. -/
lemma load_sheets_to_sql_empty_list (st : ManagerState) :
    load_sheets_to_sql st (some []) = load_sheets_to_sql st none := rfl

lemma materializeStep_missing (orig : SheetMap) (s : ManagerState) (n : String)
    (h : dictGet orig n = none) : materializeStep orig s n = s := by
  unfold materializeStep
  rw [h]

lemma foldl_materialize_filter (orig : SheetMap) (ns : List String) :
    ∀ s : ManagerState,
      ns.foldl (materializeStep orig) s
        = (ns.filter (fun n => (dictGet orig n).isSome)).foldl
            (materializeStep orig) s := by
  induction ns with
  | nil => intro s; rfl
  | cons n rest ih =>
    intro s
    cases h : dictGet orig n with
    | none =>
      rw [List.foldl_cons, materializeStep_missing orig s n h]
      rw [show (n :: rest).filter (fun n => (dictGet orig n).isSome)
          = rest.filter (fun n => (dictGet orig n).isSome) from by
        simp [List.filter_cons, h]]
      exact ih s
    | some df =>
      rw [List.foldl_cons]
      rw [show (n :: rest).filter (fun n => (dictGet orig n).isSome)
          = n :: rest.filter (fun n => (dictGet orig n).isSome) from by
        simp [List.filter_cons, h]]
      rw [List.foldl_cons]
      exact ih _

lemma foldl_materialize_frame (orig : SheetMap) (ns : List String) :
    ∀ s : ManagerState,
      (ns.foldl (materializeStep orig) s).originalData = s.originalData ∧
      (ns.foldl (materializeStep orig) s).modifiedData = s.modifiedData := by
  induction ns with
  | nil => intro s; exact ⟨rfl, rfl⟩
  | cons n rest ih =>
    intro s
    rw [List.foldl_cons]
    have hstep : (materializeStep orig s n).originalData = s.originalData ∧
        (materializeStep orig s n).modifiedData = s.modifiedData := by
      unfold materializeStep
      cases dictGet orig n <;> exact ⟨rfl, rfl⟩
    exact ⟨(ih _).1.trans hstep.1, (ih _).2.trans hstep.2⟩

lemma dictGet_dictSet_isSome (m : SheetMap) (k k2 : String) (v : Dataset)
    (h : (dictGet m k).isSome = true) :
    (dictGet (dictSet m k2 v) k).isSome = true := by
  by_cases hk : k = k2
  · subst hk
    rw [dictGet_dictSet_self]
    rfl
  · rw [dictGet_dictSet_other m k2 k v hk]
    exact h

lemma foldl_materialize_isSome (orig : SheetMap) (ns : List String) :
    ∀ (s : ManagerState) (k : String),
      (dictGet s.tables k).isSome = true →
      (dictGet (ns.foldl (materializeStep orig) s).tables k).isSome = true := by
  induction ns with
  | nil => intro s k h; exact h
  | cons n rest ih =>
    intro s k h
    rw [List.foldl_cons]
    refine ih _ _ ?_
    unfold materializeStep
    cases dictGet orig n with
    | none => exact h
    | some df => exact dictGet_dictSet_isSome _ _ _ _ h

lemma foldl_materialize_mem (orig : SheetMap) (ns : List String) :
    ∀ (s : ManagerState) (n : String), n ∈ ns →
      (dictGet orig n).isSome = true →
      (dictGet (ns.foldl (materializeStep orig) s).tables
        (String.mk (cleanTableName n.toList))).isSome = true := by
  induction ns with
  | nil => intro s n h; cases h
  | cons m rest ih =>
    intro s n hmem hsome
    rcases List.mem_cons.mp hmem with rfl | hmem2
    · rw [List.foldl_cons]
      rcases Option.isSome_iff_exists.mp hsome with ⟨df, hdf⟩
      refine foldl_materialize_isSome orig rest _ _ ?_
      unfold materializeStep
      rw [hdf]
      show (dictGet (dictSet s.tables (String.mk (cleanTableName n.toList)) df)
          (String.mk (cleanTableName n.toList))).isSome = true
      rw [dictGet_dictSet_self]
      rfl
    · rw [List.foldl_cons]
      exact ih _ _ hmem2 hsome

/-- Claim C10: when `load_sheets_to_sql` is called with an explicit
(non-empty — Python's truthiness makes an explicit empty list behave like no
list at all, loading every sheet) list of sheet names on a loaded manager, a
requested name missing from the original dataset map leaves the state
untouched at its loop iteration (only a warning is logged, nothing is
raised, no table is created for it), the whole call equals running the loop
over just the requested names that do exist, the original and modified maps
are untouched, and every requested name that does exist ends up with a
materialized table under its sanitized name. -/
theorem materialize_skips_missing (st : ManagerState) (ns : List String)
    (hne : ns ≠ []) :
    (∀ (s : ManagerState) (n : String), dictGet st.originalData n = none →
      materializeStep st.originalData s n = s) ∧
    load_sheets_to_sql st (some ns)
      = (ns.filter (fun n => (dictGet st.originalData n).isSome)).foldl
          (materializeStep st.originalData) st ∧
    (load_sheets_to_sql st (some ns)).originalData = st.originalData ∧
    (load_sheets_to_sql st (some ns)).modifiedData = st.modifiedData ∧
    (∀ n ∈ ns, (dictGet st.originalData n).isSome = true →
      (dictGet (load_sheets_to_sql st (some ns)).tables
        (String.mk (cleanTableName n.toList))).isSome = true) := by
  cases ns with
  | nil => exact absurd rfl hne
  | cons n0 tl =>
    have hrun : load_sheets_to_sql st (some (n0 :: tl))
        = (n0 :: tl).foldl (materializeStep st.originalData) st := rfl
    refine ⟨fun s n h => materializeStep_missing _ s n h, ?_, ?_, ?_, ?_⟩
    · rw [hrun]
      exact foldl_materialize_filter st.originalData (n0 :: tl) st
    · rw [hrun]
      exact (foldl_materialize_frame st.originalData (n0 :: tl) st).1
    · rw [hrun]
      exact (foldl_materialize_frame st.originalData (n0 :: tl) st).2
    · intro n hmem hsome
      rw [hrun]
      exact foldl_materialize_mem st.originalData (n0 :: tl) st n hmem hsome

/-- Witness for claim C10 at the concrete state `stW` and the non-empty
request list `["missing", "s"]`, whose first name is absent from the
original map. -/
theorem materialize_skips_missing_witness :
    (["missing", "s"] : List String) ≠ [] ∧
    ((∀ (s : ManagerState) (n : String), dictGet stW.originalData n = none →
      materializeStep stW.originalData s n = s) ∧
    load_sheets_to_sql stW (some ["missing", "s"])
      = (["missing", "s"].filter
          (fun n => (dictGet stW.originalData n).isSome)).foldl
          (materializeStep stW.originalData) stW ∧
    (load_sheets_to_sql stW (some ["missing", "s"])).originalData
      = stW.originalData ∧
    (load_sheets_to_sql stW (some ["missing", "s"])).modifiedData
      = stW.modifiedData ∧
    (∀ n ∈ ["missing", "s"], (dictGet stW.originalData n).isSome = true →
      (dictGet (load_sheets_to_sql stW (some ["missing", "s"])).tables
        (String.mk (cleanTableName n.toList))).isSome = true)) ∧
    dictGet stW.originalData "missing" = none ∧
    (dictGet stW.originalData "s").isSome = true :=
  ⟨by decide, materialize_skips_missing stW ["missing", "s"] (by decide),
   by decide, by decide⟩

/-! ### `DataAnalysisQueries.outlier_detection` (sql_utils.py lines 232-256)

The generated SQL computes, over the rows where the column is not NULL,
`mean_value = AVG(x)` and `variance = AVG(x*x) - AVG(x)*AVG(x)`, then for
each such row `z_score = ABS(x - mean_value) / SQRT(variance)`, labels the
row `Outlier` when `z_score > threshold` and `Normal` otherwise, and orders
the output by `z_score DESC`.  The embedding works in exact arithmetic: the
label is computed by the square-compare `t*t*variance < (x-mean)²`, which
for positive variance and non-negative threshold is exactly the query's
`ABS(x - mean)/SQRT(variance) > t` (proved in `outlier_detection_correct`);
the output order likewise compares squared deviations. -/

/-- The rows of the numeric column passing `WHERE x IS NOT NULL`. -/
def nonNullValues (col : List (Option ℚ)) : List ℚ := col.filterMap id

/-- The stats CTE's `mean_value`: `AVG(x)` over the non-null rows. -/
def mean_value (col : List (Option ℚ)) : ℚ :=
  (nonNullValues col).sum / (nonNullValues col).length

/-- The stats CTE's `variance`: `AVG(x*x) - AVG(x)*AVG(x)` over the non-null
rows. -/
def variance (col : List (Option ℚ)) : ℚ :=
  ((nonNullValues col).map (fun x => x * x)).sum / (nonNullValues col).length
    - mean_value col * mean_value col

/-- The query's `outlier_status` for a row with value `x`: `Outlier` exactly
when the z-score exceeds the threshold, by the exact square-compare
equivalent of `ABS(x - mean_value) / SQRT(variance) > threshold`. -/
def outlier_status (col : List (Option ℚ)) (threshold x : ℚ) : String :=
  if threshold * threshold * variance col
      < (x - mean_value col) * (x - mean_value col) then "Outlier" else "Normal"

/-- The query's output rows: the non-null values ordered by z-score
descending (`ORDER BY z_score DESC`), i.e. by squared deviation from the
mean, descending. -/
def outlier_output (col : List (Option ℚ)) : List ℚ :=
  (nonNullValues col).mergeSort (fun a b =>
    decide ((b - mean_value col) * (b - mean_value col)
      ≤ (a - mean_value col) * (a - mean_value col)))

lemma sum_sq_sub (l : List ℚ) (m : ℚ) :
    (l.map (fun x => (x - m) * (x - m))).sum
      = (l.map (fun x => x * x)).sum - 2 * m * l.sum + l.length * (m * m) := by
  induction l with
  | nil => simp
  | cons a l ih =>
    simp only [List.map_cons, List.sum_cons, List.length_cons]
    push_cast
    linear_combination ih

/-- Claim C5: for every numeric column and threshold `t ≥ 0` with positive
computed variance, the query's one-pass `AVG(x*x) - AVG(x)*AVG(x)` equals
the population variance of the non-null values; each row is labelled
`Outlier` exactly when `|x - mean| / sqrt(variance) > t` and `Normal`
exactly otherwise; and the returned rows are a permutation of the non-null
rows ordered by z-score descending. -/
theorem outlier_detection_correct (col : List (Option ℚ)) (t : ℚ)
    (hvar : 0 < variance col) (ht : 0 ≤ t) :
    variance col = ((nonNullValues col).map
        (fun x => (x - mean_value col) * (x - mean_value col))).sum
      / (nonNullValues col).length ∧
    (∀ x : ℚ,
      (outlier_status col t x = "Outlier" ↔
        (t : ℝ) < |(x : ℝ) - (mean_value col : ℝ)|
          / Real.sqrt ((variance col : ℝ))) ∧
      (outlier_status col t x = "Normal" ↔
        |(x : ℝ) - (mean_value col : ℝ)| / Real.sqrt ((variance col : ℝ))
          ≤ (t : ℝ))) ∧
    (outlier_output col).Perm (nonNullValues col) ∧
    (outlier_output col).Pairwise (fun a b : ℚ =>
      |(b : ℝ) - (mean_value col : ℝ)| / Real.sqrt ((variance col : ℝ))
        ≤ |(a : ℝ) - (mean_value col : ℝ)| / Real.sqrt ((variance col : ℝ))) := by
  have hv : (0 : ℝ) < ((variance col : ℚ) : ℝ) := by exact_mod_cast hvar
  have hs : 0 < Real.sqrt ((variance col : ℝ)) := Real.sqrt_pos.mpr hv
  have hss : Real.sqrt ((variance col : ℝ)) * Real.sqrt ((variance col : ℝ))
      = ((variance col : ℚ) : ℝ) := Real.mul_self_sqrt hv.le
  have hbridge : ∀ x : ℚ,
      (t * t * variance col < (x - mean_value col) * (x - mean_value col)) ↔
      ((t : ℝ) < |(x : ℝ) - (mean_value col : ℝ)|
        / Real.sqrt ((variance col : ℝ))) := by
    intro x
    have h1 : (0 : ℝ) ≤ (t : ℝ) * Real.sqrt ((variance col : ℝ)) :=
      mul_nonneg (by exact_mod_cast ht) hs.le
    rw [lt_div_iff hs, mul_self_lt_mul_self_iff h1 (abs_nonneg _), abs_mul_abs_self]
    rw [show ((t : ℝ) * Real.sqrt ((variance col : ℝ)))
        * ((t : ℝ) * Real.sqrt ((variance col : ℝ)))
        = (t : ℝ) * (t : ℝ) * (Real.sqrt ((variance col : ℝ))
          * Real.sqrt ((variance col : ℝ))) from by ring]
    rw [hss]
    constructor
    · intro h; exact_mod_cast h
    · intro h; exact_mod_cast h
  have hlen : ((nonNullValues col).length : ℚ) ≠ 0 := by
    intro h0
    have hlen0 : (nonNullValues col).length = 0 := by exact_mod_cast h0
    have hnil : nonNullValues col = [] := List.length_eq_zero.mp hlen0
    rw [show variance col = 0 from by
      unfold variance mean_value
      rw [hnil]
      norm_num] at hvar
    exact lt_irrefl 0 hvar
  refine ⟨?_, ?_, ?_, ?_⟩
  · rw [sum_sq_sub]
    unfold variance mean_value at *
    field_simp
    ring
  · intro x
    have hiff := hbridge x
    unfold outlier_status
    by_cases h : t * t * variance col < (x - mean_value col) * (x - mean_value col)
    · rw [if_pos h]
      exact ⟨⟨fun _ => hiff.mp h, fun _ => rfl⟩,
        ⟨fun hcontra => absurd hcontra (by decide),
         fun hcontra => absurd (hiff.mp h) (not_lt.mpr hcontra)⟩⟩
    · rw [if_neg h]
      exact ⟨⟨fun hcontra => absurd hcontra (by decide),
         fun hz => absurd (hiff.mpr hz) h⟩,
        ⟨fun _ => not_lt.mp (fun hc => h (hiff.mpr hc)), fun _ => rfl⟩⟩
  · exact List.mergeSort_perm _ _
  · have hsorted := @List.sorted_mergeSort ℚ
      (fun a b : ℚ => decide ((b - mean_value col) * (b - mean_value col)
        ≤ (a - mean_value col) * (a - mean_value col)))
      (fun a b c hab hbc => by
        simp only [decide_eq_true_eq] at hab hbc ⊢
        exact le_trans hbc hab)
      (fun a b => by
        simp only [Bool.or_eq_true, decide_eq_true_eq]
        exact le_total _ _)
      (nonNullValues col)
    refine hsorted.imp (fun {a b} hab => ?_)
    have hq : (b - mean_value col) * (b - mean_value col)
        ≤ (a - mean_value col) * (a - mean_value col) := by
      simpa using hab
    have hr : ((b : ℝ) - (mean_value col : ℝ)) * ((b : ℝ) - (mean_value col : ℝ))
        ≤ ((a : ℝ) - (mean_value col : ℝ)) * ((a : ℝ) - (mean_value col : ℝ)) := by
      exact_mod_cast hq
    rw [← abs_mul_abs_self ((b : ℝ) - (mean_value col : ℝ)),
      ← abs_mul_abs_self ((a : ℝ) - (mean_value col : ℝ))] at hr
    have habs : |(b : ℝ) - (mean_value col : ℝ)| ≤ |(a : ℝ) - (mean_value col : ℝ)| :=
      (mul_self_le_mul_self_iff (abs_nonneg _) (abs_nonneg _)).mpr hr
    exact (div_le_div_right hs).mpr habs

/-- Witness for claim C5 at the column `[1, 2, 9]` (no NULLs) and threshold
`2`: the computed variance is `38/3 > 0`. -/
theorem outlier_detection_correct_witness :
    (0 < variance [some 1, some 2, some 9] ∧ (0 : ℚ) ≤ 2) ∧
    (variance [some 1, some 2, some 9] = ((nonNullValues [some 1, some 2, some 9]).map
        (fun x => (x - mean_value [some 1, some 2, some 9])
          * (x - mean_value [some 1, some 2, some 9]))).sum
      / (nonNullValues [some 1, some 2, some 9]).length ∧
    (∀ x : ℚ,
      (outlier_status [some 1, some 2, some 9] 2 x = "Outlier" ↔
        ((2 : ℚ) : ℝ) < |(x : ℝ) - (mean_value [some 1, some 2, some 9] : ℝ)|
          / Real.sqrt ((variance [some 1, some 2, some 9] : ℝ))) ∧
      (outlier_status [some 1, some 2, some 9] 2 x = "Normal" ↔
        |(x : ℝ) - (mean_value [some 1, some 2, some 9] : ℝ)|
          / Real.sqrt ((variance [some 1, some 2, some 9] : ℝ)) ≤ ((2 : ℚ) : ℝ))) ∧
    (outlier_output [some 1, some 2, some 9]).Perm
      (nonNullValues [some 1, some 2, some 9]) ∧
    (outlier_output [some 1, some 2, some 9]).Pairwise (fun a b : ℚ =>
      |(b : ℝ) - (mean_value [some 1, some 2, some 9] : ℝ)|
        / Real.sqrt ((variance [some 1, some 2, some 9] : ℝ))
        ≤ |(a : ℝ) - (mean_value [some 1, some 2, some 9] : ℝ)|
        / Real.sqrt ((variance [some 1, some 2, some 9] : ℝ)))) := by
  have hvar : 0 < variance [some 1, some 2, some 9] := by
    norm_num [variance, mean_value, nonNullValues, List.filterMap]
  exact ⟨⟨hvar, by norm_num⟩,
    outlier_detection_correct [some 1, some 2, some 9] 2 hvar (by norm_num)⟩

/-- Claim C6: the division by zero in the z-score is reachable — for the
column `[5, 5]`, whose non-null values are all equal, the query's computed
variance is `0`, so the z-score divisor `SQRT(variance)` is `0` for both
selected rows, and nothing in the generated query guards this case. -/
theorem outlier_zero_variance_reachable :
    nonNullValues [some (5 : ℚ), some 5] = [5, 5] ∧
    variance [some (5 : ℚ), some 5] = 0 ∧
    Real.sqrt ((variance [some (5 : ℚ), some 5] : ℝ)) = 0 := by
  refine ⟨rfl, ?_, ?_⟩
  · norm_num [variance, mean_value, nonNullValues, List.filterMap]
  · rw [show variance [some (5 : ℚ), some 5] = 0 from by
      norm_num [variance, mean_value, nonNullValues, List.filterMap]]
    rw [Rat.cast_zero]
    exact Real.sqrt_zero

/-! ### `DataAnalysisQueries.pareto_analysis` (sql_utils.py lines 202-230)

The generated SQL: `ranked_data` groups the rows by category with
`SUM(value) as total_value` and `SUM(SUM(value)) OVER () as grand_total`;
`cumulative_data` adds `SUM(total_value) OVER (ORDER BY total_value DESC)`
and `ROUND(100.0 * (that sum) / grand_total, 2)`; the final select labels a
row `Top 80%` when the rounded cumulative percentage is `≤ 80`, else
`Bottom 20%`, ordered by `total_value DESC`.  SQLite's default window frame
for `ORDER BY total_value DESC` is `RANGE BETWEEN UNBOUNDED PRECEDING AND
CURRENT ROW`, which includes every peer of the current row, so the
cumulative value of a row with total `t` is the sum of all group totals
`≥ t`.  GROUP BY output order and the tie order of equal totals are not
fixed by the engine; the theorem therefore takes any ordering of the
grouped rows that is sorted by total descending. -/

/-- The `ranked_data` CTE: one row per distinct category with the sum of its
values. -/
def groupTotals (rows : List (String × ℚ)) : List (String × ℚ) :=
  ((rows.map Prod.fst).dedup).map
    (fun c => (c, ((rows.filter (fun r => r.1 == c)).map Prod.snd).sum))

/-- `grand_total`: `SUM(SUM(value)) OVER ()`, the sum of all group totals. -/
def grand_total (rows : List (String × ℚ)) : ℚ :=
  ((groupTotals rows).map Prod.snd).sum

/-- SQLite `ROUND(x, 2)`: two decimals, halves away from zero. -/
def sqliteRound2 (x : ℚ) : ℚ :=
  if 0 ≤ x then ((⌊x * 100 + 1/2⌋ : ℤ) : ℚ) / 100
  else -(((⌊-(x * 100) + 1/2⌋ : ℤ) : ℚ) / 100)

/-- `cumulative_value`: `SUM(total_value) OVER (ORDER BY total_value DESC)`
under the default `RANGE` frame — the sum of every total `≥ t`. -/
def cumulative_value (vs : List ℚ) (t : ℚ) : ℚ :=
  (vs.filter (fun x => decide (t ≤ x))).sum

/-- `cumulative_percentage`:
`ROUND(100.0 * cumulative_value / grand_total, 2)`. -/
def cumulative_percentage (vs : List ℚ) (g t : ℚ) : ℚ :=
  sqliteRound2 (100 * cumulative_value vs t / g)

/-- `pareto_category`: `Top 80%` when the rounded cumulative percentage is
`≤ 80`, else `Bottom 20%`. -/
def pareto_category (vs : List ℚ) (g t : ℚ) : String :=
  if cumulative_percentage vs g t ≤ 80 then "Top 80%" else "Bottom 20%"

lemma sum_map_filter_split (p : (String × ℚ) → Bool) (rows : List (String × ℚ)) :
    ((rows.filter p).map Prod.snd).sum
      + ((rows.filter (fun r => !(p r))).map Prod.snd).sum
      = (rows.map Prod.snd).sum := by
  induction rows with
  | nil => simp
  | cons r rs ih =>
    cases hp : p r <;>
      · simp [List.filter_cons, hp]
        linarith [ih]

lemma sum_filter_groups (cats : List String) (rows : List (String × ℚ))
    (hnd : cats.Nodup) (hcov : ∀ r ∈ rows, r.1 ∈ cats) :
    (cats.map (fun c =>
        ((rows.filter (fun r => r.1 == c)).map Prod.snd).sum)).sum
      = (rows.map Prod.snd).sum := by
  induction cats generalizing rows with
  | nil =>
    cases rows with
    | nil => rfl
    | cons r rs => exact absurd (hcov r (List.mem_cons_self _ _)) (List.not_mem_nil _)
  | cons c cs ih =>
    have hnd2 : cs.Nodup := (List.nodup_cons.mp hnd).2
    have hcnotin : c ∉ cs := (List.nodup_cons.mp hnd).1
    have hcov2 : ∀ r ∈ rows.filter (fun r => !(r.1 == c)), r.1 ∈ cs := by
      intro r hr
      rcases List.mem_filter.mp hr with ⟨hrin, hrc⟩
      have hne : r.1 ≠ c := by
        intro hrc2
        rw [hrc2] at hrc
        simp at hrc
      rcases List.mem_cons.mp (hcov r hrin) with h1 | h2
      · exact absurd h1 hne
      · exact h2
    have hagree : ∀ c2 ∈ cs,
        ((rows.filter (fun r => r.1 == c2)).map Prod.snd).sum
          = (((rows.filter (fun r => !(r.1 == c))).filter
              (fun r => r.1 == c2)).map Prod.snd).sum := by
      intro c2 hc2
      have hne : c2 ≠ c := fun h => hcnotin (h ▸ hc2)
      have hfe : rows.filter (fun r => r.1 == c2)
          = (rows.filter (fun r => !(r.1 == c))).filter
              (fun r => r.1 == c2) := by
        rw [List.filter_filter]
        apply List.filter_congr
        intro r _
        by_cases hr : r.1 = c2
        · rw [hr]
          simp [hne]
        · simp [hr]
      rw [← hfe]
    rw [List.map_cons, List.sum_cons]
    rw [List.map_congr_left hagree]
    rw [ih (rows.filter (fun r => !(r.1 == c))) hnd2 hcov2]
    exact sum_map_filter_split (fun r => r.1 == c) rows

/-- The SQL `grand_total` — the sum of all group totals — equals the sum of
all the raw values. -/
lemma grand_total_eq (rows : List (String × ℚ)) :
    grand_total rows = (rows.map Prod.snd).sum := by
  unfold grand_total groupTotals
  rw [List.map_map]
  rw [show (Prod.snd ∘ fun c =>
      (c, ((rows.filter (fun r => r.1 == c)).map Prod.snd).sum))
      = fun c => ((rows.filter (fun r => r.1 == c)).map Prod.snd).sum from rfl]
  exact sum_filter_groups _ rows (List.nodup_dedup _)
    (fun r hr => List.mem_dedup.mpr (List.mem_map_of_mem Prod.fst hr))

lemma cumulative_value_anti (vs : List ℚ) (a b : ℚ) (ha : 0 ≤ a) (hab : a ≤ b) :
    cumulative_value vs b ≤ cumulative_value vs a := by
  induction vs with
  | nil => exact le_refl _
  | cons x xs ih =>
    unfold cumulative_value at *
    by_cases hbx : b ≤ x
    · have hax : a ≤ x := le_trans hab hbx
      simp [List.filter_cons, hbx, hax]
      linarith [ih]
    · by_cases hax : a ≤ x
      · have hx : 0 ≤ x := le_trans ha hax
        simp [List.filter_cons, hbx, hax]
        linarith [ih]
      · simp [List.filter_cons, hbx, hax]
        exact ih

lemma sum_le_cumulative_value_of_neg (vs : List ℚ) (t : ℚ) (ht : t < 0) :
    vs.sum ≤ cumulative_value vs t := by
  induction vs with
  | nil => exact le_refl _
  | cons x xs ih =>
    unfold cumulative_value at *
    by_cases htx : t ≤ x
    · simp [List.filter_cons, htx]
      linarith [ih]
    · have hx : x < 0 := lt_trans (not_le.mp htx) ht
      simp [List.filter_cons, htx]
      linarith [ih]

lemma cumulative_value_nonneg (vs : List ℚ) (t : ℚ) (hsum : 0 < vs.sum) :
    0 ≤ cumulative_value vs t := by
  by_cases ht : 0 ≤ t
  · apply List.sum_nonneg
    intro x hx
    have hxt : t ≤ x := of_decide_eq_true (List.mem_filter.mp hx).2
    linarith
  · exact le_of_lt (lt_of_lt_of_le hsum
      (sum_le_cumulative_value_of_neg vs t (not_le.mp ht)))

lemma sqliteRound2_mono (a b : ℚ) (ha : 0 ≤ a) (hab : a ≤ b) :
    sqliteRound2 a ≤ sqliteRound2 b := by
  have hb : 0 ≤ b := le_trans ha hab
  unfold sqliteRound2
  rw [if_pos ha, if_pos hb]
  have hfloor : ⌊a * 100 + 1/2⌋ ≤ ⌊b * 100 + 1/2⌋ :=
    Int.floor_le_floor (by linarith)
  have : ((⌊a * 100 + 1/2⌋ : ℤ) : ℚ) ≤ ((⌊b * 100 + 1/2⌋ : ℤ) : ℚ) := by
    exact_mod_cast hfloor
  linarith

lemma sqliteRound2_100 : sqliteRound2 100 = 100 := by
  unfold sqliteRound2
  rw [if_pos (by norm_num : (0:ℚ) ≤ 100)]
  norm_num

lemma gt80_of_sqliteRound2_gt80 (x : ℚ) (h : 80 < sqliteRound2 x) : 80 < x := by
  unfold sqliteRound2 at h
  by_cases hx : 0 ≤ x
  · rw [if_pos hx] at h
    have h1 : (8000 : ℚ) < ((⌊x * 100 + 1/2⌋ : ℤ) : ℚ) := by linarith
    have h2 : (8000 : ℤ) < ⌊x * 100 + 1/2⌋ := by exact_mod_cast h1
    have h3 : (8001 : ℤ) ≤ ⌊x * 100 + 1/2⌋ := h2
    have h4 : ((8001 : ℤ) : ℚ) ≤ x * 100 + 1/2 := Int.le_floor.mp h3
    push_cast at h4
    linarith
  · rw [if_neg hx] at h
    exfalso
    have hneg : 0 < -(x * 100) := by
      have := not_le.mp hx
      linarith
    have h0 : (0 : ℤ) ≤ ⌊-(x * 100) + 1/2⌋ :=
      Int.le_floor.mpr (by push_cast; linarith)
    have h0q : (0 : ℚ) ≤ ((⌊-(x * 100) + 1/2⌋ : ℤ) : ℚ) := by exact_mod_cast h0
    linarith

/-- A downward-closed property of positions below `n` holds exactly on a
prefix `[0, k)`, and fails at `k` when `k < n`. -/
lemma exists_prefix_cut (n : ℕ) (Q : ℕ → Prop)
    (hdc : ∀ i j : ℕ, i ≤ j → j < n → Q j → Q i) :
    ∃ k, k ≤ n ∧ (∀ i, i < n → (Q i ↔ i < k)) ∧ (k < n → ¬ Q k) := by
  classical
  by_cases hex : ∃ i, i < n ∧ ¬ Q i
  · refine ⟨Nat.find hex, (Nat.find_spec hex).1.le, ?_, fun _ => (Nat.find_spec hex).2⟩
    intro i hi
    constructor
    · intro hQ
      by_contra hnot
      push_neg at hnot
      exact (Nat.find_spec hex).2 (hdc (Nat.find hex) i hnot hi hQ)
    · intro hik
      have := Nat.find_min hex hik
      push_neg at this
      exact this (lt_trans hik (Nat.find_spec hex).1)
  · push_neg at hex
    exact ⟨n, le_refl n,
      fun i hi => ⟨fun _ => hi, fun _ => hex i hi⟩,
      fun hk => absurd hk (lt_irrefl n)⟩

set_option maxHeartbeats 800000

/-- Claim C1: for every input table of (category, value) rows with positive
grand total, the Pareto query aggregates the total value per category,
orders by total value descending, and labels a row `Top 80%` exactly when
its cumulative percentage rounded to two decimals is `≤ 80` (else
`Bottom 20%`); the `Top 80%` rows form a prefix of the output: there is a
`k` such that exactly the first `k` rows are labelled `Top 80%`, each of
those has rounded cumulative percentage `≤ 80`, and the first excluded
row's exact cumulative percentage exceeds `80`.  `l` is the output
ordering: any permutation of the grouped rows sorted by total value
descending (the engine's tie order is unspecified). -/
theorem pareto_partition (rows l : List (String × ℚ))
    (hperm : l.Perm (groupTotals rows))
    (hsort : l.Sorted (fun a b => b.2 ≤ a.2))
    (hpos : 0 < grand_total rows) :
    ∃ k, k ≤ l.length ∧
      (∀ i : Fin l.length,
        (pareto_category (l.map Prod.snd) (grand_total rows) (l.get i).2
          = "Top 80%" ↔ (i : ℕ) < k)) ∧
      (∀ i : Fin l.length, (i : ℕ) < k →
        cumulative_percentage (l.map Prod.snd) (grand_total rows) (l.get i).2
          ≤ 80) ∧
      (∀ i : Fin l.length, ¬ ((i : ℕ) < k) →
        pareto_category (l.map Prod.snd) (grand_total rows) (l.get i).2
          = "Bottom 20%") ∧
      (∀ hk : k < l.length,
        80 < 100 * cumulative_value (l.map Prod.snd)
          (l.get ⟨k, hk⟩).2 / grand_total rows) := by
  have hsum : (l.map Prod.snd).sum = grand_total rows :=
    (hperm.map Prod.snd).sum_eq
  have hkey : ∀ i j : Fin l.length, (i : ℕ) ≤ (j : ℕ) →
      cumulative_percentage (l.map Prod.snd) (grand_total rows) (l.get j).2 ≤ 80 →
      cumulative_percentage (l.map Prod.snd) (grand_total rows) (l.get i).2 ≤ 80 := by
    intro i j hij hj
    have htij : (l.get j).2 ≤ (l.get i).2 := by
      rcases Nat.lt_or_ge (i : ℕ) (j : ℕ) with hlt | hge
      · exact hsort.rel_get_of_lt hlt
      · have : i = j := Fin.ext (le_antisymm hij hge)
        rw [this]
    by_cases htj : 0 ≤ (l.get j).2
    · have hcv : cumulative_value (l.map Prod.snd) (l.get i).2
          ≤ cumulative_value (l.map Prod.snd) (l.get j).2 :=
        cumulative_value_anti _ _ _ htj htij
      have hnni : 0 ≤ 100 * cumulative_value (l.map Prod.snd) (l.get i).2
          / grand_total rows :=
        div_nonneg (by
          have := cumulative_value_nonneg (l.map Prod.snd) (l.get i).2
            (hsum ▸ hpos)
          linarith) (le_of_lt hpos)
      have harg : 100 * cumulative_value (l.map Prod.snd) (l.get i).2
            / grand_total rows
          ≤ 100 * cumulative_value (l.map Prod.snd) (l.get j).2
            / grand_total rows :=
        (div_le_div_right hpos).mpr (by linarith)
      calc cumulative_percentage (l.map Prod.snd) (grand_total rows) (l.get i).2
          = sqliteRound2 (100 * cumulative_value (l.map Prod.snd) (l.get i).2
              / grand_total rows) := rfl
        _ ≤ sqliteRound2 (100 * cumulative_value (l.map Prod.snd) (l.get j).2
              / grand_total rows) := sqliteRound2_mono _ _ hnni harg
        _ ≤ 80 := hj
    · exfalso
      have hge : grand_total rows
          ≤ cumulative_value (l.map Prod.snd) (l.get j).2 :=
        hsum ▸ sum_le_cumulative_value_of_neg _ _ (not_le.mp htj)
      have h100 : (100 : ℚ) ≤ 100 * cumulative_value (l.map Prod.snd)
          (l.get j).2 / grand_total rows := by
        rw [le_div_iff hpos]
        linarith
      have hbig : (100 : ℚ)
          ≤ cumulative_percentage (l.map Prod.snd) (grand_total rows) (l.get j).2 :=
        calc (100 : ℚ) = sqliteRound2 100 := sqliteRound2_100.symm
          _ ≤ sqliteRound2 (100 * cumulative_value (l.map Prod.snd) (l.get j).2
              / grand_total rows) := sqliteRound2_mono _ _ (by norm_num) h100
      linarith [hj]
  obtain ⟨k, hkle, hiff, hcut⟩ := exists_prefix_cut l.length
    (fun i => ∃ h : i < l.length,
      cumulative_percentage (l.map Prod.snd) (grand_total rows)
        (l.get ⟨i, h⟩).2 ≤ 80)
    (by
      intro i j hij hjn hQ
      rcases hQ with ⟨hj, hQj⟩
      exact ⟨lt_of_le_of_lt hij hj, hkey ⟨i, lt_of_le_of_lt hij hj⟩ ⟨j, hj⟩ hij hQj⟩)
  refine ⟨k, hkle, ?_, ?_, ?_, ?_⟩
  · intro i
    constructor
    · intro htop
      have hpcti : cumulative_percentage (l.map Prod.snd) (grand_total rows)
          (l.get i).2 ≤ 80 := by
        by_contra hgt
        unfold pareto_category at htop
        rw [if_neg hgt] at htop
        exact absurd htop (by decide)
      exact (hiff (i : ℕ) i.isLt).mp ⟨i.isLt, hpcti⟩
    · intro hik
      rcases (hiff (i : ℕ) i.isLt).mpr hik with ⟨h, hpct⟩
      unfold pareto_category
      rw [if_pos hpct]
  · intro i hik
    rcases (hiff (i : ℕ) i.isLt).mpr hik with ⟨h, hpct⟩
    exact hpct
  · intro i hik
    have hnot : ¬ ∃ h : (i : ℕ) < l.length,
        cumulative_percentage (l.map Prod.snd) (grand_total rows)
          (l.get ⟨(i : ℕ), h⟩).2 ≤ 80 := by
      intro hQ
      exact hik ((hiff (i : ℕ) i.isLt).mp hQ)
    have hgt : ¬ cumulative_percentage (l.map Prod.snd) (grand_total rows)
        (l.get i).2 ≤ 80 := fun hle => hnot ⟨i.isLt, hle⟩
    unfold pareto_category
    rw [if_neg hgt]
  · intro hk
    have hnot := hcut hk
    have hgt : ¬ cumulative_percentage (l.map Prod.snd) (grand_total rows)
        (l.get ⟨k, hk⟩).2 ≤ 80 := fun hle => hnot ⟨hk, hle⟩
    exact gt80_of_sqliteRound2_gt80 _ (not_le.mp hgt)

/-- Witness for claim C1 at the spec's worked example: rows
`(A,100), (B,300), (C,600)`, output order `C, B, A`, grand total `1000`. -/
theorem pareto_partition_witness :
    ([("C", (600 : ℚ)), ("B", 300), ("A", 100)]).Perm
      (groupTotals [("A", (100 : ℚ)), ("B", 300), ("C", 600)]) ∧
    List.Sorted (fun a b : String × ℚ => b.2 ≤ a.2)
      [("C", (600 : ℚ)), ("B", 300), ("A", 100)] ∧
    0 < grand_total [("A", (100 : ℚ)), ("B", 300), ("C", 600)] ∧
    (∃ k, k ≤ ([("C", (600 : ℚ)), ("B", 300), ("A", 100)]).length ∧
      (∀ i : Fin ([("C", (600 : ℚ)), ("B", 300), ("A", 100)]).length,
        (pareto_category (([("C", (600 : ℚ)), ("B", 300), ("A", 100)]).map Prod.snd)
          (grand_total [("A", (100 : ℚ)), ("B", 300), ("C", 600)])
          (([("C", (600 : ℚ)), ("B", 300), ("A", 100)]).get i).2
          = "Top 80%" ↔ (i : ℕ) < k)) ∧
      (∀ i : Fin ([("C", (600 : ℚ)), ("B", 300), ("A", 100)]).length, (i : ℕ) < k →
        cumulative_percentage (([("C", (600 : ℚ)), ("B", 300), ("A", 100)]).map Prod.snd)
          (grand_total [("A", (100 : ℚ)), ("B", 300), ("C", 600)])
          (([("C", (600 : ℚ)), ("B", 300), ("A", 100)]).get i).2 ≤ 80) ∧
      (∀ i : Fin ([("C", (600 : ℚ)), ("B", 300), ("A", 100)]).length, ¬ ((i : ℕ) < k) →
        pareto_category (([("C", (600 : ℚ)), ("B", 300), ("A", 100)]).map Prod.snd)
          (grand_total [("A", (100 : ℚ)), ("B", 300), ("C", 600)])
          (([("C", (600 : ℚ)), ("B", 300), ("A", 100)]).get i).2
          = "Bottom 20%") ∧
      (∀ hk : k < ([("C", (600 : ℚ)), ("B", 300), ("A", 100)]).length,
        80 < 100 * cumulative_value (([("C", (600 : ℚ)), ("B", 300), ("A", 100)]).map Prod.snd)
          (([("C", (600 : ℚ)), ("B", 300), ("A", 100)]).get ⟨k, hk⟩).2
          / grand_total [("A", (100 : ℚ)), ("B", 300), ("C", 600)])) := by
  have hgt : groupTotals [("A", (100 : ℚ)), ("B", 300), ("C", 600)]
      = [("A", (100 : ℚ)), ("B", 300), ("C", 600)] := by
    have hd : (([("A", (100 : ℚ)), ("B", 300), ("C", 600)]).map Prod.fst).dedup
        = ["A", "B", "C"] := by decide
    have hBA : ("B" : String) ≠ "A" := by decide
    have hCA : ("C" : String) ≠ "A" := by decide
    have hAB : ("A" : String) ≠ "B" := by decide
    have hCB : ("C" : String) ≠ "B" := by decide
    have hAC : ("A" : String) ≠ "C" := by decide
    have hBC : ("B" : String) ≠ "C" := by decide
    unfold groupTotals
    rw [hd]
    norm_num [List.filter_cons, hBA, hCA, hAB, hCB, hAC, hBC]
  have hperm : ([("C", (600 : ℚ)), ("B", 300), ("A", 100)]).Perm
      (groupTotals [("A", (100 : ℚ)), ("B", 300), ("C", 600)]) := by
    rw [hgt]
    rw [show [("C", (600 : ℚ)), ("B", 300), ("A", 100)]
        = ([("A", (100 : ℚ)), ("B", 300), ("C", 600)]).reverse from rfl]
    exact List.reverse_perm _
  have hsort : List.Sorted (fun a b : String × ℚ => b.2 ≤ a.2)
      [("C", (600 : ℚ)), ("B", 300), ("A", 100)] := by
    simp [List.sorted_cons]
    norm_num
  have hpos : 0 < grand_total [("A", (100 : ℚ)), ("B", 300), ("C", 600)] := by
    unfold grand_total
    rw [hgt]
    norm_num
  exact ⟨hperm, hsort, hpos, pareto_partition _ _ hperm hsort hpos⟩
